import Mathlib

/-!
Verification development for the SecureVault password manager
(`crypto.js`, `app.js`, `background.js`).

Shallow embedding conventions:

* Byte arrays (`Uint8Array`) are `List Nat`; every real byte is `< 256`.
* `TextEncoder.encode` / `TextDecoder.decode` are modelled as the list of
  Unicode code points of the string (`strBytes` / `natsToStr`); this is an
  injective encoding with a total inverse, which is all the code relies on.
* PBKDF2 and AES-GCM are idealized: `deriveKey` is the pair
  (password bytes, salt) — deterministic and collision-free — and AES-GCM
  ciphertext is an injective byte-level encoding of (key material, iv,
  plaintext) that decrypts only with the exact same key and iv and fails
  (`none`) otherwise.  The byte-level codec (`encNat`/`encBlock`)
  guarantees every ciphertext byte is `< 256`, so the `btoa`/`atob` layer
  applies to it exactly as in the source.
* `btoa`/`atob` are real base64 (RFC 4648 alphabet, `=` padding), defined
  executably, with the `atob ∘ btoa` round trip proved for byte inputs.
* JavaScript exceptions are `Option`/`Except`: a function that can throw
  returns `none`/`.error`, and a `try { … } catch { … }` is a `match` on
  that result.
-/

namespace SecureVault

/-! ### Byte-level codec

A small injective codec used to give the idealized PBKDF2/AES-GCM
primitives concrete, executable byte-string values.  `encNat` writes a
natural number in base 255 (digits `< 255`) terminated by the byte `255`;
`encBlock` length-prefixes a list of naturals.  All produced bytes are
`< 256`. -/

/-- Base-255 little-endian digits of `n`, computed with explicit fuel so
the definition is structural; fuel `n` always suffices. -/
def toBase255 : Nat → Nat → List Nat
  | 0, _ => []
  | fuel + 1, n => if n = 0 then [] else n % 255 :: toBase255 fuel (n / 255)

/-- Reassemble a base-255 digit list. -/
def fromBase255 : List Nat → Nat
  | [] => 0
  | d :: ds => d + 255 * fromBase255 ds

/-- Encode one natural number as a byte block: base-255 digits followed by
the terminator byte `255`. -/
def encNat (n : Nat) : List Nat := toBase255 n n ++ [255]

/-- Encode a list of naturals: the length, then each element. -/
def encBlock (l : List Nat) : List Nat := encNat l.length ++ (l.map encNat).flatten

/-- Decode one `encNat` block from the front of a byte string. -/
def decNat (bs : List Nat) : Option (Nat × List Nat) :=
  match bs.dropWhile (fun b => b ≠ 255) with
  | 255 :: rest => some (fromBase255 (bs.takeWhile (fun b => b ≠ 255)), rest)
  | _ => none

/-- Decode `count` consecutive `encNat` blocks. -/
def decNats : Nat → List Nat → Option (List Nat × List Nat)
  | 0, bs => some ([], bs)
  | count + 1, bs =>
    match decNat bs with
    | some (x, rest) =>
      match decNats count rest with
      | some (l, rest2) => some (x :: l, rest2)
      | none => none
    | none => none

/-- Decode an `encBlock` from the front of a byte string. -/
def decBlock (bs : List Nat) : Option (List Nat × List Nat) :=
  match decNat bs with
  | some (len, rest) => decNats len rest
  | none => none

/-! ### Strings and code points

`TextEncoder.encode`/`TextDecoder.decode` modelled as the code-point list
of the string. -/

/-- Model of `new TextEncoder().encode(s)`: the code points of `s`. -/
def strBytes (s : String) : List Nat := s.data.map Char.toNat

/-- Model of `new TextDecoder().decode(bytes)`. -/
def natsToStr (l : List Nat) : String := String.mk (l.map Char.ofNat)

/-! ### Base64 (`btoa` / `atob`)

`crypto.js` serializes envelopes with `btoa(String.fromCharCode(...bytes))`
and reads them back with `Uint8Array.from(atob(str), c => c.charCodeAt(0))`.
`btoa` below takes the byte list directly (the composition with
`String.fromCharCode`), and `atob` yields the byte list; `atob` returns
`none` where the browser's `atob` would throw `InvalidCharacterError`. -/

/-- The RFC 4648 base64 alphabet. -/
def b64Alphabet : List Char :=
  "ABCDEFGHIJKLMNOPQRSTUVWXYZabcdefghijklmnopqrstuvwxyz0123456789+/".data

/-- Character for a 6-bit value. -/
def sextetChar (n : Nat) : Char := b64Alphabet.getD n 'A'

/-- 6-bit value of an alphabet character, `none` for a non-alphabet
character. -/
def charSextet (c : Char) : Option Nat :=
  if c ∈ b64Alphabet then some (b64Alphabet.indexOf c) else none

/-- Base64-encode a byte list, three bytes at a time, padding with `=`. -/
def b64EncodeBytes : List Nat → List Char
  | [] => []
  | [b1] => [sextetChar (b1 / 4), sextetChar (b1 % 4 * 16), '=', '=']
  | [b1, b2] =>
    [sextetChar (b1 / 4), sextetChar (b1 % 4 * 16 + b2 / 16),
      sextetChar (b2 % 16 * 4), '=']
  | b1 :: b2 :: b3 :: rest =>
    sextetChar (b1 / 4) :: sextetChar (b1 % 4 * 16 + b2 / 16) ::
      sextetChar (b2 % 16 * 4 + b3 / 64) :: sextetChar (b3 % 64) ::
      b64EncodeBytes rest

/-- Base64-decode a character list; `none` on any malformed input. -/
def b64DecodeChars : List Char → Option (List Nat)
  | [] => some []
  | c1 :: c2 :: c3 :: c4 :: rest =>
    match charSextet c1, charSextet c2 with
    | some s1, some s2 =>
      if c3 = '=' then
        if c4 = '=' then
          if rest = [] then some [s1 * 4 + s2 / 16] else none
        else none
      else
        match charSextet c3 with
        | some s3 =>
          if c4 = '=' then
            if rest = [] then
              some [s1 * 4 + s2 / 16, s2 % 16 * 16 + s3 / 4]
            else none
          else
            match charSextet c4, b64DecodeChars rest with
            | some s4, some tail =>
              some ((s1 * 4 + s2 / 16) :: (s2 % 16 * 16 + s3 / 4) ::
                (s3 % 4 * 64 + s4) :: tail)
            | _, _ => none
        | none => none
    | _, _ => none
  | _ => none

/-- Model of `btoa(String.fromCharCode(...bytes))`. -/
def btoa (bytes : List Nat) : String := String.mk (b64EncodeBytes bytes)

/-- Model of `Uint8Array.from(atob(s), c => c.charCodeAt(0))`; `none`
models the `InvalidCharacterError` throw. -/
def atob (s : String) : Option (List Nat) := b64DecodeChars s.data

/-! ### CryptoUtils (`crypto.js`)

The class constants: `saltLength = 16`, `ivLength = 12`, AES-GCM with a
256-bit key, PBKDF2 with 100000 iterations.  The KDF and the AEAD cipher
are idealized as stated at the top of the file. -/

namespace CryptoUtils

/-- `this.saltLength` from the `CryptoUtils` constructor. -/
def saltLength : Nat := 16

/-- `this.ivLength` (96 bits, recommended for GCM). -/
def ivLength : Nat := 12

/-- `this.iterations`; the idealized KDF records it only as data. -/
def iterations : Nat := 100000

/-- Model of `deriveKey(password, salt)`: PBKDF2 is deterministic in
(password, salt) and idealized as collision-free, so the derived key is
represented by the pair of password bytes and salt. -/
def deriveKey (password : String) (salt : List Nat) : List Nat × List Nat :=
  (strBytes password, salt)

/-- Idealized AES-GCM encryption (`crypto.subtle.encrypt`): an injective
byte-level encoding of (key material, iv, plaintext).  Every produced byte
is `< 256` (`aeadEncrypt_lt`). -/
def aeadEncrypt (key : List Nat × List Nat) (iv data : List Nat) : List Nat :=
  encBlock key.1 ++ encBlock key.2 ++ encBlock iv ++ encBlock data

/-- Idealized AES-GCM decryption (`crypto.subtle.decrypt`): succeeds only
when the ciphertext was produced with exactly this key and iv; `none`
models the tag-verification failure (`OperationError`). -/
def aeadDecrypt (key : List Nat × List Nat) (iv ct : List Nat) :
    Option (List Nat) :=
  match decBlock ct with
  | none => none
  | some (pw, r1) =>
    match decBlock r1 with
    | none => none
    | some (salt, r2) =>
      match decBlock r2 with
      | none => none
      | some (iv2, r3) =>
        match decBlock r3 with
        | none => none
        | some (data, rest) =>
          if pw = key.1 ∧ salt = key.2 ∧ iv2 = iv ∧ rest = [] then some data
          else none

/-- `encrypt(plaintext, password)` from `crypto.js`: the freshly generated
random `salt` (16 bytes) and `iv` (12 bytes) are passed as explicit inputs;
the result is `btoa` of `salt ++ iv ++ ciphertext`. -/
def encrypt (plaintext password : String) (salt iv : List Nat) : String :=
  btoa (salt ++ iv ++ aeadEncrypt (deriveKey password salt) iv (strBytes plaintext))

/-- `decrypt(encryptedData, password)` from `crypto.js`: base64-decode,
split at offsets 16 and 28, derive the key from the embedded salt, decrypt.
`none` models the `Failed to decrypt` throw (bad base64 or failed tag
check). -/
def decrypt (encryptedData password : String) : Option String :=
  match atob encryptedData with
  | none => none
  | some data =>
    let salt := data.take saltLength
    let iv := (data.drop saltLength).take ivLength
    let encrypted := data.drop (saltLength + ivLength)
    match aeadDecrypt (deriveKey password salt) iv encrypted with
    | none => none
    | some plain => some (natsToStr plain)

/-- Model of the 256-bit PBKDF2 `deriveBits` digest used by
`hashPassword`: deterministic in (password, salt) and collision-free
across distinct passwords, as the claims direct. -/
def deriveBits (password : String) (salt : List Nat) : List Nat :=
  encBlock (strBytes password) ++ encBlock salt

/-- `hashPassword(password, salt)` from `crypto.js`: the generated salt is
passed as an explicit input; stores `btoa(salt ++ digest)`. -/
def hashPassword (password : String) (salt : List Nat) : String :=
  btoa (salt ++ deriveBits password salt)

/-- The `try`-block body of `verifyPassword`: extract the salt (first 16
bytes) from the stored hash, re-hash the candidate password with it, and
compare the base64 strings with `===`.  `Except.error` models the
exception thrown by `atob` on a malformed stored hash. -/
def verifyPasswordTry (password storedHash : String) : Except String Bool :=
  match atob storedHash with
  | none => Except.error "InvalidCharacterError"
  | some hashData =>
    let salt := hashData.take saltLength
    Except.ok (hashPassword password salt == storedHash)

/-- `verifyPassword(password, storedHash)`: the `try`-block result, with
the `catch` clause turning any exception into `false`. -/
def verifyPassword (password storedHash : String) : Bool :=
  match verifyPasswordTry password storedHash with
  | Except.ok b => b
  | Except.error _ => false

end CryptoUtils

/-! ### Vault data model (`app.js`) -/

/-- The entry object built by `handleAddEntry` in `app.js`:
`{id, platform, username, password, createdAt}`. -/
structure VaultEntry where
  id : String
  platform : String
  username : String
  password : String
  createdAt : String
deriving DecidableEq, Repr

/-- The user object stored in the `users` map by `handleRegister`:
`{email, hashedPassword, createdAt}`. -/
structure StoredUser where
  email : String
  hashedPassword : String
  createdAt : String
deriving DecidableEq, Repr

/-- The `passwordData` object returned by the domain queries.  The
JavaScript object has a `username` field only in the `app.js`
(`PasswordVault`) variant; `background.js` builds `{platform, password}`,
modelled with `username := none`. -/
structure PasswordData where
  platform : String
  username : Option String
  password : String
deriving DecidableEq, Repr

/-! ### Domain matcher

Both `PasswordVault.getPasswordForDomain` (`app.js`) and
`BackgroundService.getPasswordForDomain` (`background.js`) contain the
same matching loop over `domain.toLowerCase().replace('www.', '')`;
`matchLoop` is that loop, returning the matched entry (the callers project
out the fields they return). -/

/-- Model of JavaScript `s.toLowerCase()` on the character list. -/
def lowerData (s : String) : List Char := s.data.map Char.toLower

/-- Model of JavaScript `hay.includes(needle)`. -/
def jsIncludes : List Char → List Char → Bool
  | [], needle => needle.isEmpty
  | c :: t, needle => needle.isPrefixOf (c :: t) || jsIncludes t needle

/-- Model of JavaScript `s.replace('www.', '')`: remove the FIRST
occurrence of `www.` anywhere in the string (not only a leading one). -/
def stripFirstWww : List Char → List Char
  | 'w' :: 'w' :: 'w' :: '.' :: rest => rest
  | c :: rest => c :: stripFirstWww rest
  | [] => []

/-- `domain.toLowerCase().replace('www.', '')` from both matchers. -/
def normalizeDomain (domain : String) : List Char :=
  stripFirstWww (lowerData domain)

/-- The shared matching loop: direct bidirectional `includes` test against
the lower-cased platform, then against `platform + ".com"`; first match
wins. -/
def matchLoop (normalizedDomain : List Char) : List VaultEntry → Option VaultEntry
  | [] => none
  | entry :: rest =>
    let platformLower := lowerData entry.platform
    if jsIncludes normalizedDomain platformLower ||
        jsIncludes platformLower normalizedDomain then
      some entry
    else if jsIncludes normalizedDomain (platformLower ++ ".com".data) ||
        jsIncludes (platformLower ++ ".com".data) normalizedDomain then
      some entry
    else matchLoop normalizedDomain rest

/-- The domain matcher of the code: normalize, then run the loop. -/
def findDomainMatch (entries : List VaultEntry) (domain : String) :
    Option VaultEntry :=
  matchLoop (normalizeDomain domain) entries

/-- Spec-side matching test, following the claim's words: the lower-cased
platform is in bidirectional substring containment with the normalized
hostname, or `platform + ".com"` is. -/
def specMatchTest (nd : List Char) (e : VaultEntry) : Bool :=
  jsIncludes nd (lowerData e.platform) || jsIncludes (lowerData e.platform) nd ||
    jsIncludes nd (lowerData e.platform ++ ".com".data) ||
    jsIncludes (lowerData e.platform ++ ".com".data) nd

/-- Spec-side normalization, following the claim's words: strip a LEADING
`www.` from the (lower-cased) hostname. -/
def specNormalizeLeadingWww (domain : String) : List Char :=
  let d := lowerData domain
  if d.take 4 = "www.".data then d.drop 4 else d

/-- The matcher as the claim describes it: leading-`www.` normalization,
first entry in list order passing the bidirectional containment test. -/
def specDomainMatch (entries : List VaultEntry) (domain : String) :
    Option VaultEntry :=
  entries.find? (specMatchTest (specNormalizeLeadingWww domain))

/-- The matcher with the claim's description amended to the code's actual
normalization: strip the first occurrence of `www.` anywhere. -/
def specDomainMatchFirstOcc (entries : List VaultEntry) (domain : String) :
    Option VaultEntry :=
  entries.find? (specMatchTest (normalizeDomain domain))

/-! ### PasswordVault (`app.js`) -/

/-- Model of JavaScript `s.trim()`. -/
def jsTrim (s : String) : String :=
  String.mk (((s.data.dropWhile Char.isWhitespace).reverse.dropWhile
    Char.isWhitespace).reverse)

/-- `capitalizePlatform`: `charAt(0).toUpperCase() + slice(1).toLowerCase()`. -/
def PasswordVault.capitalizePlatform (platform : String) : String :=
  match platform.data with
  | [] => ""
  | c :: rest => String.mk (Char.toUpper c :: rest.map Char.toLower)

/-- Outcome of `handleAddEntry`, one constructor per exit path of the
source (`alert` + early return, or a successful append). -/
inductive AddEntryResult
  | missingField
  | duplicatePlatform
  | added (entry : VaultEntry)
deriving DecidableEq, Repr

/-- `handleAddEntry` from `app.js` as a state transition on the entry
list.  `nowId` is `Date.now().toString()` and `nowIso` is
`new Date().toISOString()`, passed as inputs.  Returns the exit path and
the new entry list; rendering, form reset and persistence are outside the
model. -/
def PasswordVault.handleAddEntry (entries : List VaultEntry)
    (platformNameRaw platformUsernameRaw platformPassword : String)
    (nowId nowIso : String) : AddEntryResult × List VaultEntry :=
  let platformName := jsTrim platformNameRaw
  let platformUsername := jsTrim platformUsernameRaw
  if platformName = "" ∨ platformUsername = "" ∨ platformPassword = "" then
    (.missingField, entries)
  else if entries.any fun entry =>
      lowerData entry.platform == lowerData platformName then
    (.duplicatePlatform, entries)
  else
    let newEntry : VaultEntry :=
      ⟨nowId, PasswordVault.capitalizePlatform platformName, platformUsername,
        platformPassword, nowIso⟩
    (.added newEntry, entries ++ [newEntry])

/-- Outcome of `handleRegister`, one constructor per exit path. -/
inductive RegisterResult
  | passwordMismatch
  | passwordTooShort
  | emailTaken
  | registered
deriving DecidableEq, Repr

/-- `handleRegister` from `app.js` as a transition on the stored `users`
map (modelled as an association list).  The generated salt for
`hashPassword` and the creation timestamp are inputs. -/
def PasswordVault.handleRegister (users : List (String × StoredUser))
    (email password confirmPassword : String) (salt : List Nat)
    (nowIso : String) : RegisterResult × List (String × StoredUser) :=
  if password ≠ confirmPassword then (.passwordMismatch, users)
  else if password.length < 8 then (.passwordTooShort, users)
  else if (users.lookup email).isSome then (.emailTaken, users)
  else
    (.registered,
      users ++ [(email, ⟨email, CryptoUtils.hashPassword password salt, nowIso⟩)])

/-- In-memory state of the `PasswordVault` class. -/
structure VaultState where
  currentUser : Option StoredUser
  userPassword : Option String
  entries : List VaultEntry
deriving DecidableEq, Repr

/-- `handleLogout` from `app.js`: clears `currentUser`, `userPassword`
and `entries` (the `localStorage` marker removal and the extension
notification carry no vault data). -/
def PasswordVault.handleLogout (_st : VaultState) : VaultState :=
  { currentUser := none, userPassword := none, entries := [] }

/-- `PasswordVault.getPasswordForDomain` from `app.js`: `null` when no
user is logged in (`this.entries` is always an array, hence truthy),
otherwise the matching loop projecting `{platform, username, password}`. -/
def PasswordVault.getPasswordForDomain (currentUser : Option StoredUser)
    (entries : List VaultEntry) (domain : String) : Option PasswordData :=
  if currentUser.isNone then none
  else
    match matchLoop (normalizeDomain domain) entries with
    | some entry => some ⟨entry.platform, some entry.username, entry.password⟩
    | none => none

/-! ### Entry-list serialization

`saveUserEntries` stores `encrypt(JSON.stringify(entries))` and
`loadUserEntries` applies `JSON.parse` to the decryption result.
`JSON.stringify`/`JSON.parse` on an array of `VaultEntry` records are
modelled as an injective serialization with a partial-inverse parser over
the byte codec above. -/

/-- Serialization of one entry record (model of its JSON object). -/
def entryToBytes (e : VaultEntry) : List Nat :=
  encBlock (strBytes e.id) ++ encBlock (strBytes e.platform) ++
    encBlock (strBytes e.username) ++ encBlock (strBytes e.password) ++
    encBlock (strBytes e.createdAt)

/-- Serialization of the entry array (model of `JSON.stringify`). -/
def entriesToPlain (l : List VaultEntry) : String :=
  natsToStr (encNat l.length ++ (l.map entryToBytes).flatten)

/-- Decode one string field. -/
def decStr (bs : List Nat) : Option (String × List Nat) :=
  (decBlock bs).map fun p => (natsToStr p.1, p.2)

/-- Decode one entry record. -/
def decEntry (bs : List Nat) : Option (VaultEntry × List Nat) :=
  (decStr bs).bind fun p1 =>
    (decStr p1.2).bind fun p2 =>
      (decStr p2.2).bind fun p3 =>
        (decStr p3.2).bind fun p4 =>
          (decStr p4.2).map fun p5 =>
            (⟨p1.1, p2.1, p3.1, p4.1, p5.1⟩, p5.2)

/-- Decode `n` consecutive entry records. -/
def decEntriesAux : Nat → List Nat → Option (List VaultEntry × List Nat)
  | 0, bs => some ([], bs)
  | n + 1, bs =>
    (decEntry bs).bind fun p =>
      (decEntriesAux n p.2).map fun q => (p.1 :: q.1, q.2)

/-- Parser for the serialized entry array (model of `JSON.parse`);
`none` models the `SyntaxError` throw on malformed input. -/
def parseEntries (s : String) : Option (List VaultEntry) :=
  match decNat (strBytes s) with
  | none => none
  | some (n, rest) =>
    match decEntriesAux n rest with
    | some (l, []) => some l
    | _ => none

/-- `loadUserEntries` from `app.js`: the stored envelope for the current
account (read from the blob store) and the session password are inputs.
Absent envelope: start with `[]` (first run).  The `try`/`catch` turns a
decryption or parse failure into a reset to `[]`; the surrounding login
flow is never failed. -/
def PasswordVault.loadUserEntries (storedEnvelope : Option String)
    (userPassword : String) : List VaultEntry :=
  match storedEnvelope with
  | none => []
  | some encryptedData =>
    match CryptoUtils.decrypt encryptedData userPassword with
    | none => []
    | some decryptedData =>
      match parseEntries decryptedData with
      | none => []
      | some entries => entries

/-- `saveUserEntries` from `app.js`: the envelope written to the blob
store (fresh salt and iv as inputs). -/
def PasswordVault.saveUserEntries (entries : List VaultEntry)
    (userPassword : String) (salt iv : List Nat) : String :=
  CryptoUtils.encrypt (entriesToPlain entries) userPassword salt iv

/-! ### BackgroundService (`background.js`) -/

/-- The `VAULT_UPDATE` messages handled by `handleVaultUpdate`.  For
`entries_updated`, `message.data || []` makes a missing payload an empty
list, modelled with `Option`. -/
inductive VaultMsg
  | userLoggedIn (email : String)
  | userLoggedOut
  | entriesUpdated (data : Option (List VaultEntry))
deriving DecidableEq

/-- Tests whether a message is a `user_logged_in` event. -/
def VaultMsg.isLoginMsg : VaultMsg → Bool
  | .userLoggedIn _ => true
  | _ => false

/-- In-memory state of the `BackgroundService` class. -/
structure BgState where
  passwordData : List VaultEntry
  isUserLoggedIn : Bool
  userEmail : Option String
deriving DecidableEq

/-- `handleVaultUpdate` from `background.js` on the in-memory state (the
`chrome.storage` mirror and the broadcast carry the same data and are
outside the model). -/
def BackgroundService.handleVaultUpdate (st : BgState) : VaultMsg → BgState
  | .userLoggedIn email => { st with isUserLoggedIn := true, userEmail := some email }
  | .userLoggedOut => { passwordData := [], isUserLoggedIn := false, userEmail := none }
  | .entriesUpdated data => { st with passwordData := data.getD [] }

/-- Fold a message sequence through `handleVaultUpdate`. -/
def BackgroundService.runMsgs (st : BgState) (msgs : List VaultMsg) : BgState :=
  msgs.foldl BackgroundService.handleVaultUpdate st

/-- `BackgroundService.getPasswordForDomain` from `background.js`:
`null` when not logged in or the cache is empty, otherwise the matching
loop projecting `{platform, password}` — note: no `username` field. -/
def BackgroundService.getPasswordForDomain (isUserLoggedIn : Bool)
    (passwordData : List VaultEntry) (domain : String) : Option PasswordData :=
  if !isUserLoggedIn || passwordData.isEmpty then none
  else
    match matchLoop (normalizeDomain domain) passwordData with
    | some entry => some ⟨entry.platform, none, entry.password⟩
    | none => none

/-- `requestAutofill` from `background.js`: queries
`getPasswordForDomain` and, when it finds data, sends exactly that object
in the `AUTOFILL_PASSWORD` message (the returned value); `none` means no
message is sent. -/
def BackgroundService.requestAutofill (isUserLoggedIn : Bool)
    (passwordData : List VaultEntry) (domain : String) : Option PasswordData :=
  BackgroundService.getPasswordForDomain isUserLoggedIn passwordData domain

/-- One `addEntry` form submission: the three field values and the two
timestamps read during the call. -/
structure AddOp where
  platform : String
  username : String
  password : String
  nowId : String
  nowIso : String
deriving DecidableEq

/-- Run a sequence of `handleAddEntry` calls, threading the entry list. -/
def runAddOps (entries : List VaultEntry) : List AddOp → List VaultEntry
  | [] => entries
  | op :: rest =>
    runAddOps
      (PasswordVault.handleAddEntry entries op.platform op.username op.password
        op.nowId op.nowIso).2 rest

/-! ## Infrastructure lemmas for the claim theorems -/

theorem fromBase255_toBase255 (fuel n : Nat) (h : n ≤ fuel) :
    fromBase255 (toBase255 fuel n) = n := by
  induction fuel generalizing n with
  | zero => simp only [toBase255, fromBase255]; omega
  | succ fuel ih =>
    by_cases h0 : n = 0
    · subst h0; rfl
    · have hdiv : n / 255 ≤ fuel := by
        have := Nat.div_lt_self (Nat.pos_of_ne_zero h0) (by norm_num : 1 < 255)
        omega
      simp only [toBase255, if_neg h0, fromBase255, ih _ hdiv]
      omega

theorem toBase255_lt (fuel n : Nat) : ∀ d ∈ toBase255 fuel n, d < 255 := by
  induction fuel generalizing n with
  | zero => intro d hd; simp [toBase255] at hd
  | succ fuel ih =>
    intro d hd
    by_cases h0 : n = 0
    · subst h0; simp [toBase255] at hd
    · simp only [toBase255, if_neg h0, List.mem_cons] at hd
      rcases hd with h | h
      · subst h; exact Nat.mod_lt _ (by norm_num)
      · exact ih _ _ h

theorem encNat_lt (n : Nat) : ∀ b ∈ encNat n, b < 256 := by
  intro b hb
  simp only [encNat, List.mem_append, List.mem_singleton] at hb
  rcases hb with h | h
  · exact Nat.lt_of_lt_of_le (toBase255_lt n n b h) (by norm_num)
  · omega

theorem encBlock_lt (l : List Nat) : ∀ b ∈ encBlock l, b < 256 := by
  intro b hb
  simp only [encBlock, List.mem_append] at hb
  rcases hb with h | h
  · exact encNat_lt _ b h
  · rcases List.mem_flatten.mp h with ⟨s, hs, hbs⟩
    rcases List.mem_map.mp hs with ⟨x, _, hx⟩
    exact encNat_lt x b (hx ▸ hbs)

theorem takeWhile_append_all {p : Nat → Bool} {l : List Nat} (rest : List Nat)
    (h : ∀ x ∈ l, p x = true) :
    (l ++ rest).takeWhile p = l ++ rest.takeWhile p := by
  induction l with
  | nil => rfl
  | cons a t ih =>
    have ha : p a = true := h a (by simp)
    simp [List.takeWhile_cons, ha, ih fun x hx => h x (by simp [hx])]

theorem dropWhile_append_all {p : Nat → Bool} {l : List Nat} (rest : List Nat)
    (h : ∀ x ∈ l, p x = true) :
    (l ++ rest).dropWhile p = rest.dropWhile p := by
  induction l with
  | nil => rfl
  | cons a t ih =>
    have ha : p a = true := h a (by simp)
    simp [List.dropWhile_cons, ha, ih fun x hx => h x (by simp [hx])]

theorem decNat_encNat (n : Nat) (tail : List Nat) :
    decNat (encNat n ++ tail) = some (n, tail) := by
  have hdig : ∀ x ∈ toBase255 n n, (fun b => decide (b ≠ 255)) x = true := by
    intro x hx
    simp only [decide_eq_true_eq]
    exact Nat.ne_of_lt (toBase255_lt n n x hx)
  simp only [decNat, encNat, List.append_assoc, List.cons_append]
  rw [dropWhile_append_all _ hdig, takeWhile_append_all _ hdig]
  simp [List.dropWhile_cons, List.takeWhile_cons,
    fromBase255_toBase255 n n (Nat.le_refl n)]

theorem decNats_encNats (l : List Nat) (tail : List Nat) :
    decNats l.length ((l.map encNat).flatten ++ tail) = some (l, tail) := by
  induction l generalizing tail with
  | nil => rfl
  | cons a t ih =>
    simp only [List.map_cons, List.flatten_cons, List.length_cons,
      List.append_assoc]
    simp only [decNats, decNat_encNat, ih]

theorem decBlock_encBlock (l : List Nat) (tail : List Nat) :
    decBlock (encBlock l ++ tail) = some (l, tail) := by
  simp only [decBlock, encBlock, List.append_assoc, decNat_encNat,
    decNats_encNats]

theorem natsToStr_strBytes (s : String) : natsToStr (strBytes s) = s := by
  simp only [natsToStr, strBytes, List.map_map]
  have : (Char.ofNat ∘ Char.toNat) = id := by
    funext c; exact Char.ofNat_toNat c
  rw [this, List.map_id]

theorem strBytes_injective : Function.Injective strBytes := by
  intro s t h
  have := congrArg natsToStr h
  rwa [natsToStr_strBytes, natsToStr_strBytes] at this

theorem charSextet_sextetChar : ∀ n, n < 64 → charSextet (sextetChar n) = some n := by
  decide

theorem sextetChar_ne_pad : ∀ n, n < 64 → sextetChar n ≠ '=' := by
  decide

theorem b64DecodeChars_b64EncodeBytes :
    ∀ (bytes : List Nat), (∀ b ∈ bytes, b < 256) →
      b64DecodeChars (b64EncodeBytes bytes) = some bytes
  | [], _ => rfl
  | [b1], hb => by
    have h1 : b1 < 256 := hb b1 (by simp)
    have e1 := charSextet_sextetChar (b1 / 4) (by omega)
    have e2 := charSextet_sextetChar (b1 % 4 * 16) (by omega)
    simp only [b64EncodeBytes, b64DecodeChars, e1, e2, if_true,
      Option.some.injEq, List.cons.injEq, and_true]
    omega
  | [b1, b2], hb => by
    have h1 : b1 < 256 := hb b1 (by simp)
    have h2 : b2 < 256 := hb b2 (by simp)
    have e1 := charSextet_sextetChar (b1 / 4) (by omega)
    have e2 := charSextet_sextetChar (b1 % 4 * 16 + b2 / 16) (by omega)
    have e3 := charSextet_sextetChar (b2 % 16 * 4) (by omega)
    have ne3 := sextetChar_ne_pad (b2 % 16 * 4) (by omega)
    simp only [b64EncodeBytes, b64DecodeChars, e1, e2, e3, if_neg ne3,
      if_true, Option.some.injEq, List.cons.injEq, and_true]
    exact ⟨by omega, by omega⟩
  | b1 :: b2 :: b3 :: rest, hb => by
    have h1 : b1 < 256 := hb b1 (by simp)
    have h2 : b2 < 256 := hb b2 (by simp)
    have h3 : b3 < 256 := hb b3 (by simp)
    have e1 := charSextet_sextetChar (b1 / 4) (by omega)
    have e2 := charSextet_sextetChar (b1 % 4 * 16 + b2 / 16) (by omega)
    have e3 := charSextet_sextetChar (b2 % 16 * 4 + b3 / 64) (by omega)
    have e4 := charSextet_sextetChar (b3 % 64) (by omega)
    have ne3 := sextetChar_ne_pad (b2 % 16 * 4 + b3 / 64) (by omega)
    have ne4 := sextetChar_ne_pad (b3 % 64) (by omega)
    have hrest : b64DecodeChars (b64EncodeBytes rest) = some rest :=
      b64DecodeChars_b64EncodeBytes rest (fun b hbm => hb b (by simp [hbm]))
    simp only [b64EncodeBytes, b64DecodeChars, e1, e2, e3, e4, if_neg ne3,
      if_neg ne4, hrest, Option.some.injEq, List.cons.injEq, and_true]
    exact ⟨by omega, by omega, by omega⟩

theorem atob_btoa (bytes : List Nat) (hb : ∀ b ∈ bytes, b < 256) :
    atob (btoa bytes) = some bytes := by
  simp only [atob, btoa]
  exact b64DecodeChars_b64EncodeBytes bytes hb

theorem btoa_injOn {l1 l2 : List Nat} (h1 : ∀ b ∈ l1, b < 256)
    (h2 : ∀ b ∈ l2, b < 256) (h : btoa l1 = btoa l2) : l1 = l2 := by
  have := congrArg atob h
  rw [atob_btoa l1 h1, atob_btoa l2 h2] at this
  exact Option.some_injective _ this

theorem aeadEncrypt_lt (key : List Nat × List Nat) (iv data : List Nat) :
    ∀ b ∈ CryptoUtils.aeadEncrypt key iv data, b < 256 := by
  intro b hb
  simp only [CryptoUtils.aeadEncrypt, List.append_assoc, List.mem_append] at hb
  rcases hb with h | h | h | h
  all_goals exact encBlock_lt _ b h

theorem deriveBits_lt (password : String) (salt : List Nat) :
    ∀ b ∈ salt ++ CryptoUtils.deriveBits password salt,
      (∀ s ∈ salt, s < 256) → b < 256 := by
  intro b hb hs
  simp only [CryptoUtils.deriveBits, List.append_assoc, List.mem_append] at hb
  rcases hb with h | h | h
  · exact hs b h
  · exact encBlock_lt _ b h
  · exact encBlock_lt _ b h

/-! ## Claim theorems -/

/-- C1: for every plaintext `P` and password `W` (with the fresh random
salt and IV modelled as inputs of the correct Uint8Array shape),
decrypting the envelope produced by `encrypt` with the same password
returns `P` exactly: `open(seal(P, W), W) = P`. -/
theorem C1_encrypt_decrypt_roundtrip (P W : String) (salt iv : List Nat)
    (hsl : salt.length = 16) (hil : iv.length = 12)
    (hsb : ∀ b ∈ salt, b < 256) (hib : ∀ b ∈ iv, b < 256) :
    CryptoUtils.decrypt (CryptoUtils.encrypt P W salt iv) W = some P := by
  have hct := aeadEncrypt_lt (CryptoUtils.deriveKey W salt) iv (strBytes P)
  set ct := CryptoUtils.aeadEncrypt (CryptoUtils.deriveKey W salt) iv (strBytes P)
    with hctdef
  have henv : ∀ b ∈ salt ++ (iv ++ ct), b < 256 := by
    intro b hb
    simp only [List.mem_append] at hb
    rcases hb with h | h | h
    · exact hsb b h
    · exact hib b h
    · exact hct b h
  have e1 : (salt ++ (iv ++ ct)).take 16 = salt := List.take_left' hsl
  have e2 : ((salt ++ (iv ++ ct)).drop 16).take 12 = iv := by
    rw [List.drop_left' hsl, List.take_left' hil]
  have e3 : (salt ++ (iv ++ ct)).drop 28 = ct := by
    rw [← List.append_assoc]
    exact List.drop_left' (by rw [List.length_append, hsl, hil])
  have hdec : CryptoUtils.aeadDecrypt (CryptoUtils.deriveKey W salt) iv ct =
      some (strBytes P) := by
    have d4 : decBlock (encBlock (strBytes P)) = some (strBytes P, []) := by
      have := decBlock_encBlock (strBytes P) []
      rwa [List.append_nil] at this
    simp only [hctdef, CryptoUtils.aeadEncrypt, CryptoUtils.deriveKey,
      List.append_assoc, CryptoUtils.aeadDecrypt, decBlock_encBlock, d4]
    simp
  simp only [CryptoUtils.encrypt, CryptoUtils.decrypt, List.append_assoc,
    CryptoUtils.saltLength, CryptoUtils.ivLength]
  rw [atob_btoa _ henv]
  simp only [e1, e2, Nat.reduceAdd, e3, hdec, natsToStr_strBytes]

/-- Witness for C1 at a concrete plaintext, password, salt and IV. -/
theorem C1_encrypt_decrypt_roundtrip_witness :
    CryptoUtils.decrypt
      (CryptoUtils.encrypt "Hi" "pw" (List.replicate 16 0) (List.replicate 12 0))
      "pw" = some "Hi" :=
  C1_encrypt_decrypt_roundtrip "Hi" "pw" (List.replicate 16 0)
    (List.replicate 12 0) (by decide) (by decide) (by decide) (by decide)

/-- C2: for every password `W1` (with the generated salt modelled as an
input of the correct shape), `verifyPassword W1 (hashPassword W1 salt)`
returns `true`; and for every distinct password `W2`,
`verifyPassword W2 (hashPassword W1 salt)` returns `false` (the idealized
KDF digest is collision-free across distinct passwords). -/
theorem C2_password_verification (W1 W2 : String) (salt : List Nat)
    (hsl : salt.length = 16) (hsb : ∀ b ∈ salt, b < 256) :
    CryptoUtils.verifyPassword W1 (CryptoUtils.hashPassword W1 salt) = true ∧
    (W1 ≠ W2 →
      CryptoUtils.verifyPassword W2 (CryptoUtils.hashPassword W1 salt) = false) := by
  have hb1 : ∀ b ∈ salt ++ CryptoUtils.deriveBits W1 salt, b < 256 :=
    fun b hb => deriveBits_lt W1 salt b hb hsb
  have hsalt : (salt ++ CryptoUtils.deriveBits W1 salt).take 16 = salt :=
    List.take_left' hsl
  constructor
  · simp only [CryptoUtils.verifyPassword, CryptoUtils.verifyPasswordTry,
      CryptoUtils.hashPassword, CryptoUtils.saltLength]
    rw [atob_btoa _ hb1]
    simp only [hsalt, beq_self_eq_true]
  · intro hne
    simp only [CryptoUtils.verifyPassword, CryptoUtils.verifyPasswordTry,
      CryptoUtils.hashPassword, CryptoUtils.saltLength]
    rw [atob_btoa _ hb1]
    simp only [hsalt]
    apply beq_eq_false_iff_ne.mpr
    intro heq
    have hb2 : ∀ b ∈ salt ++ CryptoUtils.deriveBits W2 salt, b < 256 :=
      fun b hb => deriveBits_lt W2 salt b hb hsb
    have hlists := btoa_injOn hb2 hb1 heq
    have hbits := List.append_cancel_left hlists
    have hdec := congrArg decBlock (congrArg (· ++ ([] : List Nat)) hbits)
    simp only [CryptoUtils.deriveBits, List.append_assoc, List.append_nil,
      decBlock_encBlock, Option.some.injEq, Prod.mk.injEq] at hdec
    exact hne (strBytes_injective hdec.1).symm

/-- Witness for C2 at concrete passwords and salt. -/
theorem C2_password_verification_witness :
    CryptoUtils.verifyPassword "a" (CryptoUtils.hashPassword "a" (List.replicate 16 0)) = true ∧
    CryptoUtils.verifyPassword "b" (CryptoUtils.hashPassword "a" (List.replicate 16 0)) = false :=
  ⟨(C2_password_verification "a" "b" (List.replicate 16 0) (by decide) (by decide)).1,
    (C2_password_verification "a" "b" (List.replicate 16 0) (by decide)
      (by decide)).2 (by decide)⟩

/-- C7: for every input pair (password, stored envelope), including
malformed or truncated envelopes, `verifyPassword` never throws — it
always returns a boolean, and whenever its `try`-block raises (any parse
fault), the `catch` clause makes it return `false`. -/
theorem C7_verifyPassword_never_throws (password stored : String) :
    (CryptoUtils.verifyPassword password stored = true ∨
      CryptoUtils.verifyPassword password stored = false) ∧
    (∀ e, CryptoUtils.verifyPasswordTry password stored = Except.error e →
      CryptoUtils.verifyPassword password stored = false) := by
  constructor
  · cases h : CryptoUtils.verifyPassword password stored
    · exact Or.inr rfl
    · exact Or.inl rfl
  · intro e he
    simp only [CryptoUtils.verifyPassword, he]

/-- Witness for C7 on a malformed (non-base64) stored envelope. -/
theorem C7_verifyPassword_never_throws_witness :
    CryptoUtils.verifyPassword "pw" "!!!!" = false :=
  (C7_verifyPassword_never_throws "pw" "!!!!").2 "InvalidCharacterError" rfl

/-- C3 counterexample: the claim's normalization ("strip a leading
`www.`") disagrees with the code's `replace('www.', '')`, which removes
the first occurrence anywhere.  On hostname `"wwww.x.com"` with an entry
for platform `"wx"`, the code matcher strips the inner `www.` (yielding
`"wx.com"`) and returns the entry, while the matcher described by the
claim returns none. -/
theorem C3_domainMatch_counterexample :
    findDomainMatch [⟨"1", "wx", "u", "p", "t"⟩] "wwww.x.com" =
      some ⟨"1", "wx", "u", "p", "t"⟩ ∧
    specDomainMatch [⟨"1", "wx", "u", "p", "t"⟩] "wwww.x.com" = none := by
  decide

/-- C3 (amended): for every entry list and hostname, the domain matcher
lower-cases the hostname and strips the FIRST occurrence of `"www."`
anywhere in it (JavaScript `replace` semantics, not only a leading one),
and returns the first entry in list order whose lower-cased platform is in
bidirectional substring containment with the normalized hostname, or whose
platform + ".com" is; `none` when no entry satisfies either test. -/
theorem C3_domainMatch_firstOccurrence (entries : List VaultEntry)
    (domain : String) :
    findDomainMatch entries domain = specDomainMatchFirstOcc entries domain := by
  unfold findDomainMatch specDomainMatchFirstOcc
  induction entries with
  | nil => rfl
  | cons e rest ih =>
    simp only [matchLoop, List.find?_cons, specMatchTest]
    cases h1 : (jsIncludes (normalizeDomain domain) (lowerData e.platform) ||
        jsIncludes (lowerData e.platform) (normalizeDomain domain)) with
    | true => simp [h1]
    | false =>
      obtain ⟨h1a, h1b⟩ : _ ∧ _ := by simpa using h1
      cases h2 : (jsIncludes (normalizeDomain domain)
          (lowerData e.platform ++ ".com".data) ||
          jsIncludes (lowerData e.platform ++ ".com".data)
            (normalizeDomain domain)) with
      | true => simp [h1, h1a, h1b, h2]
      | false =>
        obtain ⟨h2a, h2b⟩ : _ ∧ _ := by simpa using h2
        simp [h1, h1a, h1b, h2, h2a, h2b, ih]

/-- C4 counterexample: on a matched record the background-service
autofill result is `{platform, password}` with NO `username` field
(modelled as `username := none`), so it does not contain the matched
record's username as the claim states. -/
theorem C4_autofill_counterexample :
    BackgroundService.requestAutofill true [⟨"1", "Github", "bob", "pw", "t"⟩]
      "github.com" = some ⟨"Github", none, "pw"⟩ ∧
    findDomainMatch [⟨"1", "Github", "bob", "pw", "t"⟩] "github.com" =
      some ⟨"1", "Github", "bob", "pw", "t"⟩ ∧
    BackgroundService.requestAutofill true [⟨"1", "Github", "bob", "pw", "t"⟩]
      "github.com" ≠ some ⟨"Github", some "bob", "pw"⟩ := by
  decide

/-- C4 (amended): when the domain matcher finds a record and the user is
logged in, the background autofill/domain-query result carries the
record's platform and password but no username, while the web-app
domain-query result carries platform, username and password; when no
record matches or the user is not logged in, both results are none. -/
theorem C4_query_results (isLoggedIn : Bool) (entries : List VaultEntry)
    (domain : String) :
    (∀ r, findDomainMatch entries domain = some r → isLoggedIn = true →
      BackgroundService.requestAutofill isLoggedIn entries domain =
        some ⟨r.platform, none, r.password⟩) ∧
    (findDomainMatch entries domain = none →
      BackgroundService.requestAutofill isLoggedIn entries domain = none) ∧
    (isLoggedIn = false →
      BackgroundService.requestAutofill isLoggedIn entries domain = none) ∧
    (∀ u r, findDomainMatch entries domain = some r →
      PasswordVault.getPasswordForDomain (some u) entries domain =
        some ⟨r.platform, some r.username, r.password⟩) ∧
    PasswordVault.getPasswordForDomain none entries domain = none ∧
    (∀ u, findDomainMatch entries domain = none →
      PasswordVault.getPasswordForDomain (some u) entries domain = none) := by
  refine ⟨?_, ?_, ?_, ?_, ?_, ?_⟩
  · intro r hr htrue
    subst htrue
    have hne : entries ≠ [] := by
      intro hnil
      rw [hnil] at hr
      simp [findDomainMatch, matchLoop] at hr
    have hempty : entries.isEmpty = false := by
      cases entries with
      | nil => exact absurd rfl hne
      | cons a t => rfl
    simp only [BackgroundService.requestAutofill,
      BackgroundService.getPasswordForDomain, hempty, Bool.not_true,
      Bool.false_or, Bool.or_self]
    rw [show matchLoop (normalizeDomain domain) entries = some r from hr]
    simp
  · intro hr
    simp only [BackgroundService.requestAutofill,
      BackgroundService.getPasswordForDomain]
    cases h : (!isLoggedIn || entries.isEmpty) with
    | true => simp [h]
    | false =>
      simp only [h, Bool.false_eq_true, if_false]
      rw [show matchLoop (normalizeDomain domain) entries = none from hr]
  · intro hfalse
    subst hfalse
    simp [BackgroundService.requestAutofill,
      BackgroundService.getPasswordForDomain]
  · intro u r hr
    simp only [PasswordVault.getPasswordForDomain, Option.isNone_some,
      Bool.false_eq_true, if_false]
    rw [show matchLoop (normalizeDomain domain) entries = some r from hr]
  · simp [PasswordVault.getPasswordForDomain]
  · intro u hr
    simp only [PasswordVault.getPasswordForDomain, Option.isNone_some,
      Bool.false_eq_true, if_false]
    rw [show matchLoop (normalizeDomain domain) entries = none from hr]

/-- Witness for C4 (amended) at a concrete state and hostname. -/
theorem C4_query_results_witness :
    BackgroundService.requestAutofill true [⟨"1", "Github", "bob", "pw", "t"⟩]
      "github.com" = some ⟨"Github", none, "pw"⟩ ∧
    PasswordVault.getPasswordForDomain (some ⟨"a@x.com", "h", "t"⟩)
      [⟨"1", "Github", "bob", "pw", "t"⟩] "github.com" =
      some ⟨"Github", some "bob", "pw"⟩ ∧
    PasswordVault.getPasswordForDomain (some ⟨"a@x.com", "h", "t"⟩)
      [⟨"1", "Github", "bob", "pw", "t"⟩] "example.com" = none :=
  ⟨(C4_query_results true [⟨"1", "Github", "bob", "pw", "t"⟩] "github.com").1
      ⟨"1", "Github", "bob", "pw", "t"⟩ (by decide) rfl,
    (C4_query_results true [⟨"1", "Github", "bob", "pw", "t"⟩] "github.com").2.2.2.1
      ⟨"a@x.com", "h", "t"⟩ ⟨"1", "Github", "bob", "pw", "t"⟩ (by decide),
    (C4_query_results true [⟨"1", "Github", "bob", "pw", "t"⟩] "example.com").2.2.2.2.2
      ⟨"a@x.com", "h", "t"⟩ (by decide)⟩

/-- C5: `loadUserEntries` never fails the login: with no stored envelope
it initializes the entry list to `[]` (first run, not an error), and when
the stored envelope fails to decrypt (authentication failure) the `catch`
resets the entry list to `[]` and the operation completes normally. -/
theorem C5_loadUserEntries_fallback (env password : String) :
    PasswordVault.loadUserEntries none password = [] ∧
    (CryptoUtils.decrypt env password = none →
      PasswordVault.loadUserEntries (some env) password = []) := by
  constructor
  · rfl
  · intro h
    simp only [PasswordVault.loadUserEntries, h]

/-- Witness for C5 on a stored envelope that fails to decrypt. -/
theorem C5_loadUserEntries_fallback_witness :
    PasswordVault.loadUserEntries (some "!!!!") "pw" = [] :=
  (C5_loadUserEntries_fallback "!!!!" "pw").2 rfl

/-- C6: if some existing entry's platform equals the (trimmed) new
platform name under case-insensitive comparison, `handleAddEntry` rejects
the addition with the duplicate-platform error and leaves the entry list
unchanged (field values nonempty, as required to reach the duplicate
check). -/
theorem C6_addEntry_duplicate_rejected (entries : List VaultEntry)
    (p u pw nowId nowIso : String) (e : VaultEntry) (he : e ∈ entries)
    (hdup : lowerData e.platform = lowerData (jsTrim p))
    (hp : jsTrim p ≠ "") (hu : jsTrim u ≠ "") (hpw : pw ≠ "") :
    PasswordVault.handleAddEntry entries p u pw nowId nowIso =
      (.duplicatePlatform, entries) := by
  simp only [PasswordVault.handleAddEntry]
  rw [if_neg (by simp [hp, hu, hpw])]
  have hany : (entries.any fun entry =>
      lowerData entry.platform == lowerData (jsTrim p)) = true :=
    List.any_eq_true.mpr ⟨e, he, beq_iff_eq.mpr hdup⟩
  rw [if_pos hany]

/-- Witness for C6: the spec's `addEntry("Gmail", …)` then
`addEntry("gmail", …)` scenario; the second call is rejected as a
duplicate with the list unchanged. -/
theorem C6_addEntry_duplicate_rejected_witness :
    PasswordVault.handleAddEntry [] "Gmail" "u" "p" "1" "t" =
      (.added ⟨"1", "Gmail", "u", "p", "t"⟩, [⟨"1", "Gmail", "u", "p", "t"⟩]) ∧
    PasswordVault.handleAddEntry [⟨"1", "Gmail", "u", "p", "t"⟩] "gmail" "u2"
      "p2" "2" "t2" = (.duplicatePlatform, [⟨"1", "Gmail", "u", "p", "t"⟩]) :=
  ⟨by decide,
    C6_addEntry_duplicate_rejected [⟨"1", "Gmail", "u", "p", "t"⟩] "gmail" "u2"
      "p2" "2" "t2" ⟨"1", "Gmail", "u", "p", "t"⟩ (by decide) (by decide)
      (by decide) (by decide) (by decide)⟩

theorem runMsgs_no_login_keeps_loggedOut (msgs : List VaultMsg) :
    ∀ st : BgState, st.isUserLoggedIn = false →
      (∀ m ∈ msgs, m.isLoginMsg = false) →
      (BackgroundService.runMsgs st msgs).isUserLoggedIn = false := by
  induction msgs with
  | nil => intro st h _; exact h
  | cons m rest ih =>
    intro st h hm
    simp only [BackgroundService.runMsgs, List.foldl_cons]
    refine ih (BackgroundService.handleVaultUpdate st m) ?_
      fun x hx => hm x (by simp [hx])
    cases m with
    | userLoggedIn email =>
      have hfalse := hm (VaultMsg.userLoggedIn email) (by simp)
      simp [VaultMsg.isLoginMsg] at hfalse
    | userLoggedOut => rfl
    | entriesUpdated data => exact h

/-- C8: after a logout event is processed, every subsequent domain query
returns none for every hostname — even if a non-empty entry list was
cached before the logout and even if later (non-login) messages repopulate
the cache — until a new login message arrives; likewise the web-app query
returns none for every hostname after `handleLogout`. -/
theorem C8_logout_clears_queries (st : BgState) (msgs : List VaultMsg)
    (domain : String) (vs : VaultState) (domain2 : String)
    (hmsgs : ∀ m ∈ msgs, m.isLoginMsg = false) :
    BackgroundService.getPasswordForDomain
      (BackgroundService.runMsgs
        (BackgroundService.handleVaultUpdate st .userLoggedOut) msgs).isUserLoggedIn
      (BackgroundService.runMsgs
        (BackgroundService.handleVaultUpdate st .userLoggedOut) msgs).passwordData
      domain = none ∧
    PasswordVault.getPasswordForDomain
      (PasswordVault.handleLogout vs).currentUser
      (PasswordVault.handleLogout vs).entries domain2 = none := by
  constructor
  · have hlog : (BackgroundService.runMsgs
        (BackgroundService.handleVaultUpdate st .userLoggedOut) msgs).isUserLoggedIn = false :=
      runMsgs_no_login_keeps_loggedOut msgs _ rfl hmsgs
    simp [BackgroundService.getPasswordForDomain, hlog]
  · rfl

/-- Witness for C8: a state with a cached entry, logout, then an
entries-update message repopulating the cache; the query still returns
none. -/
theorem C8_logout_clears_queries_witness :
    BackgroundService.getPasswordForDomain
      (BackgroundService.runMsgs
        (BackgroundService.handleVaultUpdate
          ⟨[⟨"1", "Github", "bob", "pw", "t"⟩], true, some "a@x.com"⟩
          .userLoggedOut)
        [.entriesUpdated (some [⟨"1", "Github", "bob", "pw", "t"⟩])]).isUserLoggedIn
      (BackgroundService.runMsgs
        (BackgroundService.handleVaultUpdate
          ⟨[⟨"1", "Github", "bob", "pw", "t"⟩], true, some "a@x.com"⟩
          .userLoggedOut)
        [.entriesUpdated (some [⟨"1", "Github", "bob", "pw", "t"⟩])]).passwordData
      "github.com" = none :=
  (C8_logout_clears_queries
    ⟨[⟨"1", "Github", "bob", "pw", "t"⟩], true, some "a@x.com"⟩
    [.entriesUpdated (some [⟨"1", "Github", "bob", "pw", "t"⟩])]
    "github.com" ⟨none, none, []⟩ "x.com" (by decide)).1

/-- C9 counterexample: two successful `addEntry` calls that observe the
same `Date.now()` timestamp (`"100"`) produce entries with equal ids, so
the resulting list's ids are not pairwise distinct. -/
theorem C9_ids_counterexample :
    PasswordVault.handleAddEntry [] "A" "u" "p" "100" "t" =
      (.added ⟨"100", "A", "u", "p", "t"⟩, [⟨"100", "A", "u", "p", "t"⟩]) ∧
    PasswordVault.handleAddEntry [⟨"100", "A", "u", "p", "t"⟩] "B" "u" "p"
      "100" "t" =
      (.added ⟨"100", "B", "u", "p", "t"⟩,
        [⟨"100", "A", "u", "p", "t"⟩, ⟨"100", "B", "u", "p", "t"⟩]) ∧
    ¬ (([⟨"100", "A", "u", "p", "t"⟩,
        (⟨"100", "B", "u", "p", "t"⟩ : VaultEntry)].map VaultEntry.id).Nodup) := by
  decide

theorem handleAddEntry_snd (entries : List VaultEntry)
    (p u pw nowId nowIso : String) :
    (PasswordVault.handleAddEntry entries p u pw nowId nowIso).2 = entries ∨
    (PasswordVault.handleAddEntry entries p u pw nowId nowIso).2 =
      entries ++ [⟨nowId, PasswordVault.capitalizePlatform (jsTrim p),
        jsTrim u, pw, nowIso⟩] := by
  simp only [PasswordVault.handleAddEntry]
  by_cases h1 : (jsTrim p = "" ∨ jsTrim u = "" ∨ pw = "")
  · left; rw [if_pos h1]
  · rw [if_neg h1]
    by_cases h2 : (entries.any fun entry =>
        lowerData entry.platform == lowerData (jsTrim p)) = true
    · left; rw [if_pos h2]
    · right; rw [if_neg h2]

theorem runAddOps_ids_nodup (ops : List AddOp) :
    ∀ entries : List VaultEntry,
      (entries.map VaultEntry.id).Nodup →
      (ops.map AddOp.nowId).Nodup →
      (∀ i ∈ entries.map VaultEntry.id, i ∉ ops.map AddOp.nowId) →
      ((runAddOps entries ops).map VaultEntry.id).Nodup := by
  induction ops with
  | nil => intro entries he _ _; exact he
  | cons op rest ih =>
    intro entries he hops hdisj
    simp only [runAddOps]
    rcases handleAddEntry_snd entries op.platform op.username op.password
        op.nowId op.nowIso with hcase | hcase
    · rw [hcase]
      refine ih entries he (List.nodup_cons.mp (by simpa using hops)).2
        fun i hi hmem => hdisj i hi (by simp [hmem])
    · rw [hcase]
      have hfresh : op.nowId ∉ entries.map VaultEntry.id := by
        intro hmem
        exact hdisj _ hmem (by simp)
      refine ih _ ?_ (List.nodup_cons.mp (by simpa using hops)).2 ?_
      · rw [List.map_append]
        refine List.nodup_append.mpr ⟨he, List.nodup_singleton _, ?_⟩
        intro a ha hb
        simp only [List.map_cons, List.map_nil, List.mem_singleton] at hb
        exact hdisj a ha (by simp [hb])
      · intro i hi hmem
        rw [List.map_append] at hi
        rcases List.mem_append.mp hi with h | h
        · exact hdisj i h (by simp [hmem])
        · simp only [List.map_cons, List.map_nil, List.mem_singleton] at h
          subst h
          exact (List.nodup_cons.mp (by simpa using hops)).1 hmem

/-- C9 (amended): for every sequence of `addEntry` operations starting
from an empty list, IF the `Date.now()` timestamps observed by the calls
are pairwise distinct, the resulting entry list has pairwise distinct
`id` values.  (Without that proviso the claim fails: ids are the
timestamps, see the counterexample.) -/
theorem C9_ids_nodup_of_distinct_timestamps (ops : List AddOp)
    (h : (ops.map AddOp.nowId).Nodup) :
    ((runAddOps [] ops).map VaultEntry.id).Nodup :=
  runAddOps_ids_nodup ops [] (by simp) h (by simp)

/-- Witness for C9 (amended) on two adds with distinct timestamps. -/
theorem C9_ids_nodup_of_distinct_timestamps_witness :
    ((runAddOps [] [⟨"A", "u", "p", "1", "t"⟩,
      ⟨"B", "u", "p", "2", "t"⟩]).map VaultEntry.id).Nodup :=
  C9_ids_nodup_of_distinct_timestamps
    [⟨"A", "u", "p", "1", "t"⟩, ⟨"B", "u", "p", "2", "t"⟩] (by decide)

/-- C10: registration with a master password shorter than 8 characters,
or with a mismatched confirmation, is rejected: no account is created and
the stored users mapping is unchanged. -/
theorem C10_register_rejects_short_password
    (users : List (String × StoredUser))
    (email password confirmPassword : String) (salt : List Nat)
    (nowIso : String)
    (h : password.length < 8 ∨ password ≠ confirmPassword) :
    (PasswordVault.handleRegister users email password confirmPassword salt
      nowIso).2 = users ∧
    (PasswordVault.handleRegister users email password confirmPassword salt
      nowIso).1 ≠ .registered := by
  by_cases hne : password ≠ confirmPassword
  · simp only [PasswordVault.handleRegister, if_pos hne]
    exact ⟨by simp, by decide⟩
  · have hlen : password.length < 8 := h.resolve_right hne
    simp only [PasswordVault.handleRegister, if_neg hne, if_pos hlen]
    exact ⟨by simp, by decide⟩

/-- Witness for C10 on a 5-character password. -/
theorem C10_register_rejects_short_password_witness :
    (PasswordVault.handleRegister [] "a@x.com" "short" "short" [] "t").2 = [] ∧
    (PasswordVault.handleRegister [] "a@x.com" "short" "short" [] "t").1 ≠
      .registered :=
  C10_register_rejects_short_password [] "a@x.com" "short" "short" [] "t"
    (Or.inl (by decide))

end SecureVault
